import Mathlib

/-!
Shallow embedding of `old/comprehensive-whatsapp-analysis.py`: the WhatsApp
chat-log parsing engine (`parse_chat`) and the analysis pipeline
(`analyze_chat`), together with theorems settling the specification claims.

Python strings are modelled as lists of characters.  Character classes
(`\d`, `\w`, `str.isalpha`, whitespace) are modelled on the ASCII range,
which covers every literal and every concrete input used below.  Machine
reals produced by `mean` are modelled as rationals.  Code that can raise is
modelled with `Except`/`Option`.
-/

namespace Wachat

/-- Chat text: one entry per Python string character. -/
abbrev Str := List Char

/-- Does `p` occur at the very start of `s`?  (Used both for Python's
`str.startswith` and as the inner step of the substring test.) -/
def strStarts : Str → Str → Bool
  | [], _ => true
  | _ :: _, [] => false
  | p :: ps, c :: cs => p == c && strStarts ps cs

/-- Python's substring containment `pat in s`: `pat` occurs (contiguously)
somewhere in `s`. -/
def strContains : Str → Str → Bool
  | [], pat => pat.isEmpty
  | c :: rest, pat => strStarts pat (c :: rest) || strContains rest pat

/-- Lower-case a character (ASCII model of Python `str.lower`). -/
def lowerChar (c : Char) : Char := c.toLower

/-- Lower-case a string, as `str.lower()` does characterwise. -/
def lowerStr (s : Str) : Str := s.map lowerChar

/-- Timestamp of a record, split into calendar/clock fields exactly as
`datetime.strptime` produces them. -/
structure DateTime where
  year : Nat
  month : Nat
  day : Nat
  hour : Nat
  minute : Nat
  second : Nat
  deriving DecidableEq, Repr

/-- Gregorian leap-year test, as in CPython's `datetime` module. -/
def isLeapYear (y : Nat) : Bool := (y % 4 == 0 && y % 100 != 0) || y % 400 == 0

/-- Length of month `m` (1-12) of year `y`, as in CPython's `datetime`. -/
def daysInMonth (y m : Nat) : Nat :=
  if m = 2 then (if isLeapYear y then 29 else 28)
  else if m = 4 ∨ m = 6 ∨ m = 9 ∨ m = 11 then 30
  else 31

/-- Days in year `y` before the first of month `m`. -/
def daysBeforeMonth (y m : Nat) : Nat :=
  (List.range (m - 1)).foldl (fun acc i => acc + daysInMonth y (i + 1)) 0

/-- Days before January 1 of year `y` in the proleptic Gregorian calendar. -/
def daysBeforeYear (y : Nat) : Nat :=
  let n := y - 1
  n * 365 + n / 4 - n / 100 + n / 400

/-- Day number of a calendar date: Python's `date.toordinal` (0001-01-01 is
day 1).  `datetime.date` values compare and subtract exactly as their
ordinals do, so the `date` grouping keys of the pipeline are represented by
this number throughout. -/
def dateOrdinal (y m d : Nat) : Nat := daysBeforeYear y + daysBeforeMonth y m + d

/-- Calendar-day number of a timestamp: model of `datetime.dt.date` as a
grouping/sorting key. -/
def DateTime.dateOrd (dt : DateTime) : Nat := dateOrdinal dt.year dt.month dt.day

/-- Absolute second count of a timestamp; differences of these are exactly
`(t2 - t1).total_seconds()` for in-range datetimes. -/
def DateTime.epochSec (dt : DateTime) : Int :=
  ((dt.dateOrd * 86400 + dt.hour * 3600 + dt.minute * 60 + dt.second : Nat) : Int)

/-- Numeric value of an ASCII digit character. -/
def digitVal (c : Char) : Nat := c.toNat - 48

/-- Two-digit decimal value. -/
def num2 (a b : Char) : Nat := 10 * digitVal a + digitVal b

/-- Four-digit decimal value. -/
def num4 (a b c d : Char) : Nat :=
  1000 * digitVal a + 100 * digitVal b + 10 * digitVal c + digitVal d

/-- Model of `datetime.strptime(dt_str, '%d/%m/%Y, %H:%M:%S')` on the
20-character strings that the timestamp capture group can produce, returning
`none` exactly where CPython raises `ValueError`: month outside 1-12, day 0
or past the month's length, hour above 23, minute above 59, second above 59
(CPython's `%S` pattern admits 60 and 61 but the `datetime` constructor then
rejects them), or year 0000. -/
def strptime : Str → Option DateTime
  | [d1, d2, '/', m1, m2, '/', y1, y2, y3, y4, ',', ' ', h1, h2, ':', n1, n2, ':', s1, s2] =>
    if ([d1, d2, m1, m2, y1, y2, y3, y4, h1, h2, n1, n2, s1, s2].all Char.isDigit) then
      let d := num2 d1 d2
      let mo := num2 m1 m2
      let y := num4 y1 y2 y3 y4
      let h := num2 h1 h2
      let mi := num2 n1 n2
      let s := num2 s1 s2
      if 1 ≤ y ∧ 1 ≤ mo ∧ mo ≤ 12 ∧ 1 ≤ d ∧ d ≤ daysInMonth y mo ∧
          h ≤ 23 ∧ mi ≤ 59 ∧ s ≤ 59 then
        some ⟨y, mo, d, h, mi, s⟩
      else none
    else none
  | _ => none

/-- Attempt the bracketed-timestamp prefix of the pattern
`\[(\d{2}/\d{2}/\d{4}, \d{2}:\d{2}:\d{2})\] ` at the head of the text; on
success return the 20-character capture-group string and the text following
the closing bracket and space. -/
def tsShape : Str → Option (Str × Str)
  | '[' :: d1 :: d2 :: '/' :: m1 :: m2 :: '/' :: y1 :: y2 :: y3 :: y4 :: ',' :: ' ' ::
      h1 :: h2 :: ':' :: n1 :: n2 :: ':' :: s1 :: s2 :: ']' :: ' ' :: rest =>
    if ([d1, d2, m1, m2, y1, y2, y3, y4, h1, h2, n1, n2, s1, s2].all Char.isDigit) then
      some ([d1, d2, '/', m1, m2, '/', y1, y2, y3, y4, ',', ' ',
             h1, h2, ':', n1, n2, ':', s1, s2], rest)
    else none
  | _ => none

/-- Does the text begin with a space followed by at least one more
character?  (The `": "` delimiter needs ` ` and then a non-empty body.) -/
def startsSpaceBody : Str → Bool
  | x :: _ :: _ => x == ' '
  | _ => false

/-- Non-greedy sender/body split of `(.+?): (.+)` given that the first sender
character is `c`: split at the earliest colon-space that is preceded by at
least one sender character and followed by a non-empty body, exactly as the
lazy quantifier with backtracking does. -/
def senderSplitAux (c : Char) : Str → Option (Str × Str)
  | [] => none
  | r :: rs =>
    if r == ':' && startsSpaceBody rs then some ([c], rs.tail)
    else (senderSplitAux r rs).map (fun p => (c :: p.1, p.2))

/-- Split the text after the timestamp into `(.+?): (.+)` sender and body. -/
def senderSplit : Str → Option (Str × Str)
  | c :: rest => senderSplitAux c rest
  | [] => none

/-- Leftmost match of `\[(\d{2}/\d{2}/\d{4}, \d{2}:\d{2}:\d{2})\] (.+?): (.+)`
in one line, scanning start positions left to right as `re.findall` does.
Because no element of the pattern can match a newline, `re.findall` over the
whole file blob coincides with per-line matching; and since a successful
match consumes the rest of the line (`(.+)` is greedy), each line yields at
most one match. -/
def matchFrom : Str → Option (Str × Str × Str)
  | [] => none
  | c :: rest =>
    match tsShape (c :: rest) with
    | some (ts, after) =>
      match senderSplit after with
      | some (s, b) => some (ts, s, b)
      | none => matchFrom rest
    | none => matchFrom rest

/-- Parsed message record, one per matched non-call line. -/
structure Msg where
  dt : DateTime
  sender : Str
  message : Str
  deriving DecidableEq, Repr

/-- Call status as stored in the `type` column. -/
inductive CallType
  | Completed
  | Missed
  deriving DecidableEq, Repr

/-- Parsed call record, one per matched call line. -/
structure Call where
  dt : DateTime
  initiator : Str
  duration : Nat
  ctype : CallType
  deriving DecidableEq, Repr

/-- Literal `"Video call"`. -/
def videoCallLit : Str := "Video call".toList

/-- Literal `"Missed video call"`. -/
def missedVideoCallLit : Str := "Missed video call".toList

/-- Literal `"Missed"`. -/
def missedLit : Str := "Missed".toList

/-- The two-character delimiter `": "` separating sender and body. -/
def colonSpaceLit : Str := [':', ' ']

/-- Classification test of `parse_chat`:
`'Video call' in msg or 'Missed video call' in msg` (case-sensitive). -/
def isCallBody (b : Str) : Bool :=
  strContains b videoCallLit || strContains b missedVideoCallLit

/-- Python regex word character `\w`, on the ASCII range. -/
def isWordChar (c : Char) : Bool := c.isAlpha || c.isDigit || c == '_'

/-- Decimal value of a digit string, as `int(...)` reads a `\d+` group. -/
def natOfDigits (ds : Str) : Nat := ds.foldl (fun n c => 10 * n + digitVal c) 0

/-- Does the text begin with a space and then a word character? -/
def spaceWordHere : Str → Bool
  | sp :: w :: _ => sp == ' ' && isWordChar w
  | _ => false

/-- Does `(\d+) (\w+)` match at the head of the text: a digit run starts
here and the character right after the run is a space followed by a word
character?  This is the decidable reading of "an integer followed by a word
occurs at this position" (the regex demands a space directly after the
digits, so the integer is the whole digit run). -/
def intWordHere : Str → Bool
  | [] => false
  | c :: rest => c.isDigit && spaceWordHere ((c :: rest).dropWhile Char.isDigit)

/-- Group 2 of a `(\d+) (\w+)` match at the head of the text: the maximal
word-character run after the space that follows the digit run. -/
def unitHere (t : Str) : Str :=
  match t.dropWhile Char.isDigit with
  | _ :: w :: tl => w :: tl.takeWhile isWordChar
  | _ => []

/-- Model of `re.search(r'(\d+) (\w+)', msg)`: the leftmost position at
which the pattern matches wins; group 1 is the (maximal) digit run there as
a number and group 2 the maximal word-character run after the space.
Scanning one character at a time is sound because every start position
strictly inside a digit run sees the same text after the run and therefore
fails or succeeds together with the run's start, which the scan reaches
first. -/
def reSearchIntWord : Str → Option (Nat × Str)
  | [] => none
  | c :: rest =>
    if intWordHere (c :: rest) then
      some (natOfDigits ((c :: rest).takeWhile Char.isDigit), unitHere (c :: rest))
    else reSearchIntWord rest

/-- Call status of a matched call body: `'Missed' if 'Missed' in msg else
'Completed'`. -/
def callTypeOf (b : Str) : CallType :=
  if strContains b missedLit then CallType.Missed else CallType.Completed

/-- Python `unit.startswith('hr')`. -/
def startsHr (u : Str) : Bool := strStarts "hr".toList u

/-- Normalized call duration in minutes, mirroring the call branch of
`parse_chat`: start at 0; Missed calls stay 0; otherwise the first
`(\d+) (\w+)` occurrence sets it, times 60 when the unit word starts with
`hr`. -/
def durationOf (b : Str) : Nat :=
  match callTypeOf b with
  | CallType.Missed => 0
  | CallType.Completed =>
    match reSearchIntWord b with
    | some (v, u) => if startsHr u then v * 60 else v
    | none => 0

/-- Call record built from a matched call line. -/
def mkCall (dt : DateTime) (s b : Str) : Call := ⟨dt, s, durationOf b, callTypeOf b⟩

/-- Loop body of `parse_chat` over the regex matches, in order: parse the
timestamp (an unparsable one raises `ValueError`, modelled as `Except.error`
aborting the whole parse), then append the line as a call or a message
record. -/
def buildRecords : List (Str × Str × Str) → Except Unit (List Msg × List Call)
  | [] => Except.ok ([], [])
  | (ts, s, b) :: rest =>
    match strptime ts with
    | none => Except.error ()
    | some dt =>
      (buildRecords rest).map (fun p =>
        if isCallBody b then (p.1, mkCall dt s b :: p.2)
        else (⟨dt, s, b⟩ :: p.1, p.2))

/-- All regex matches of the file, line by line (see `matchFrom`). -/
def allMatches (lines : List Str) : List (Str × Str × Str) :=
  lines.filterMap matchFrom

/-- Model of `parse_chat`: the two record sequences in chat order, or the
propagated `ValueError` of a timestamp that fails `strptime`. -/
def parseChat (lines : List Str) : Except Unit (List Msg × List Call) :=
  buildRecords (allMatches lines)

/-- Occurrence count of `a` in a list, written out for direct inductions. -/
def countEq {α : Type} [DecidableEq α] (a : α) : List α → Nat
  | [] => 0
  | x :: xs => (if x = a then 1 else 0) + countEq a xs

/-- Distinct elements in first-appearance order (`seen` holds the keys
already emitted). -/
def dedupFirstAux {α : Type} [DecidableEq α] (seen : List α) : List α → List α
  | [] => []
  | x :: xs => if x ∈ seen then dedupFirstAux seen xs else x :: dedupFirstAux (x :: seen) xs

/-- Distinct elements of a list in first-appearance order. -/
def dedupFirst {α : Type} [DecidableEq α] (l : List α) : List α := dedupFirstAux [] l

/-- Model of `Series.value_counts()` as an association list: one entry per
distinct value with its multiplicity.  `value_counts` additionally orders the
entries by descending count (tie order unspecified); no claim below depends
on that ordering, which permutes entries without changing key membership or
counts, so entries are kept in first-appearance order here. -/
def valueCounts {α : Type} [DecidableEq α] (xs : List α) : List (α × Nat) :=
  (dedupFirst xs).map (fun k => (k, countEq k xs))

/-- Literal `"image omitted"`. -/
def imageOmittedLit : Str := "image omitted".toList

/-- Literal `"sticker omitted"`. -/
def stickerOmittedLit : Str := "sticker omitted".toList

/-- Case-insensitive containment `Series.str.contains(pat, case=False)` for
the regex-free lower-case patterns used by the pipeline. -/
def containsCI (s pat : Str) : Bool := strContains (lowerStr s) pat

/-- Stage 1: `msgs_df['sender'].value_counts()`. -/
def msgCount (msgs : List Msg) : List (Str × Nat) := valueCounts (msgs.map Msg.sender)

/-- Stage 1: sender counts over the rows whose message contains
`image omitted` case-insensitively.  A sender none of whose messages match
contributes no row to the filtered frame and hence no key here. -/
def imgCount (msgs : List Msg) : List (Str × Nat) :=
  valueCounts ((msgs.filter (fun m => containsCI m.message imageOmittedLit)).map Msg.sender)

/-- Stage 1: sender counts over the rows whose message contains
`sticker omitted` case-insensitively. -/
def stkCount (msgs : List Msg) : List (Str × Nat) :=
  valueCounts ((msgs.filter (fun m => containsCI m.message stickerOmittedLit)).map Msg.sender)

/-- Remove adjacent duplicates; on a sorted list this is the strictly
increasing enumeration of the distinct values. -/
def dedupAdj : List Nat → List Nat
  | [] => []
  | [x] => [x]
  | x :: y :: rest => if x = y then dedupAdj (y :: rest) else x :: dedupAdj (y :: rest)

/-- Calendar-day numbers of the messages in chat order
(`msgs_df['date'] = msgs_df['datetime'].dt.date`). -/
def msgDates (msgs : List Msg) : List Nat := msgs.map (fun m => m.dt.dateOrd)

/-- Model of `msgs_df.groupby('date').size()`: one entry per distinct
observed message date, keys ascending (`groupby` sorts its keys), value the
number of messages on that date.  Calendar days on which no message occurred
yield no key: `groupby` sees only observed keys, and nothing reindexes or
fills the series afterwards. -/
def dailySeries (msgs : List Msg) : List (Nat × Nat) :=
  (dedupAdj (List.insertionSort (· ≤ ·) (msgDates msgs))).map
    (fun d => (d, countEq d (msgDates msgs)))

/-- Model of stage 7, `msgs_df['hour'].value_counts().sort_index()`: one
entry per distinct observed hour, ascending; hours with no messages yield no
entry. -/
def hourHist (msgs : List Msg) : List (Nat × Nat) :=
  (dedupAdj (List.insertionSort (· ≤ ·) (msgs.map (fun m => m.dt.hour)))).map
    (fun h => (h, countEq h (msgs.map (fun m => m.dt.hour))))

/-- Timestamps (absolute seconds) of one sender's messages, in chat order:
the sender's column slice that `groupby('sender')['datetime']` works on. -/
def senderTimes (msgs : List Msg) (s : Str) : List Int :=
  (msgs.filter (fun m => m.sender == s)).map (fun m => m.dt.epochSec)

/-- Consecutive gaps down one sender's timestamp column, in minutes:
`diff().dt.total_seconds()/60` (the first row's null diff omitted). -/
def gapsMin : List Int → List ℚ
  | [] => []
  | [_] => []
  | t1 :: t2 :: rest => ((t2 - t1 : Int) : ℚ) / 60 :: gapsMin (t2 :: rest)

/-- Mean of a list of rationals (`Series.mean()` over the non-null entries). -/
def meanQ (l : List ℚ) : ℚ := l.sum / (l.length : ℚ)

/-- Mean response gap of one sender: `mean()` over the sender's diff column,
null (`none`) when the sender has no gap, i.e. fewer than two messages. -/
def respMean (msgs : List Msg) (s : Str) : Option ℚ :=
  let g := gapsMin (senderTimes msgs s)
  if g.isEmpty then none else some (meanQ g)

/-- Model of stage 9: per-sender mean of the same-sender consecutive gaps;
a sender whose mean is null is dropped by `dropna`.  `groupby` orders keys
lexicographically; no claim depends on that order, so keys stay in
first-appearance order. -/
def respResult (msgs : List Msg) : List (Str × ℚ) :=
  (dedupFirst (msgs.map Msg.sender)).filterMap (fun s =>
    (respMean msgs s).map (fun q => (s, q)))

/-- Helper of `splitWS` accumulating the current token reversed. -/
def splitWSAux (cur : Str) : Str → List Str
  | [] => if cur.isEmpty then [] else [cur.reverse]
  | c :: rest =>
    if c.isWhitespace then
      if cur.isEmpty then splitWSAux [] rest else cur.reverse :: splitWSAux [] rest
    else splitWSAux (c :: cur) rest

/-- Python `str.split()` with no argument: split on whitespace runs, no
empty tokens. -/
def splitWS (s : Str) : List Str := splitWSAux [] s

/-- Python `str.isalpha` (ASCII model): non-empty and all alphabetic. -/
def isAlphaStr (w : Str) : Bool := !w.isEmpty && w.all Char.isAlpha

/-- Join strings with single spaces (`' '.join`). -/
def joinSpaces : List Str → Str
  | [] => []
  | [w] => w
  | w :: w2 :: ws => w ++ ' ' :: joinSpaces (w2 :: ws)

/-- Stage 5 corpus: per message, lower-case, whitespace-split, keep the
purely alphabetic non-stopword tokens and rejoin with spaces; then join the
per-message strings with spaces. -/
def corpusOf (stopSet : Str → Bool) (msgs : List Msg) : Str :=
  joinSpaces (msgs.map (fun m =>
    joinSpaces ((splitWS (lowerStr m.message)).filter
      (fun w => isAlphaStr w && !stopSet w))))

/-- Stage 8 emoji table: characters classified as emoji by the external
table, concatenated across messages in order and counted; sorted by
descending count with ties in first-appearance order (`most_common`), top
ten kept. -/
def emojiTop10 (isEmoji : Char → Bool) (msgs : List Msg) : List (Char × Nat) :=
  let allE := msgs.foldr (fun m acc => m.message.filter isEmoji ++ acc) []
  (List.insertionSort (fun a b : Char × Nat => b.2 ≤ a.2) (valueCounts allE)).take 10

/-- Weekday with Monday 0 (`Series.dt.dayofweek`); day 1, 0001-01-01, was a
Monday in the proleptic Gregorian calendar. -/
def DateTime.dow (dt : DateTime) : Nat := (dt.dateOrd + 6) % 7

/-- Durations of the calls falling in the `(weekday, hour)` group `k`. -/
def heatGroup (calls : List Call) (k : Nat × Nat) : List ℚ :=
  (calls.filter (fun c => c.dt.dow == k.1 && c.dt.hour == k.2)).map
    (fun c => (c.duration : ℚ))

/-- Stage 3 heatmap table: mean duration per observed `(weekday, hour)`
group, computed only when calls exist.  `groupby` orders the keys; no claim
depends on that order. -/
def heatTable (calls : List Call) : List ((Nat × Nat) × ℚ) :=
  (dedupFirst (calls.map (fun c => (c.dt.dow, c.dt.hour)))).map
    (fun k => (k, meanQ (heatGroup calls k)))

/-- Stage 4 call summary: total, completed, missed, mean completed duration
(0 when there is no completed call). -/
def callSummary (calls : List Call) : Nat × Nat × Nat × ℚ :=
  let comp := calls.filter (fun c => c.ctype == CallType.Completed)
  let miss := calls.filter (fun c => c.ctype == CallType.Missed)
  (calls.length, comp.length, miss.length,
    if comp.isEmpty then 0 else meanQ (comp.map (fun c => (c.duration : ℚ))))

/-- Stage 6 data: per sender (first-appearance order), the character lengths
of their messages. -/
def lengthsBySender (msgs : List Msg) : List (Str × List Nat) :=
  (dedupFirst (msgs.map Msg.sender)).map (fun s =>
    (s, (msgs.filter (fun m => m.sender == s)).map (fun m => m.message.length)))

/-- Centered 7-day rolling mean of the count column
(`rolling(7, center=True).mean()`): `none` where the window is incomplete. -/
def rollingMean7 (counts : List ℚ) : List (Option ℚ) :=
  (List.range counts.length).map (fun i =>
    if 3 ≤ i ∧ i + 3 < counts.length then
      some (meanQ ((counts.drop (i - 3)).take 7))
    else none)

/-- Outputs `analyze_chat` has already produced when it reaches the forecast
stage; these exist even when the ARIMA call then raises. -/
structure PreForecast where
  msgCountT : List (Str × Nat)
  imgCountT : List (Str × Nat)
  stkCountT : List (Str × Nat)
  daily : List (Nat × Nat)
  trend : List (Option ℚ)
  deriving DecidableEq

/-- The pre-forecast outputs of `analyze_chat` on the given records. -/
def preForecastOf (msgs : List Msg) : PreForecast :=
  { msgCountT := msgCount msgs
    imgCountT := imgCount msgs
    stkCountT := stkCount msgs
    daily := dailySeries msgs
    trend := rollingMean7 ((dailySeries msgs).map (fun p => (p.2 : ℚ))) }

/-- Everything `analyze_chat` computes and reports when it runs to the end. -/
structure Report where
  pre : PreForecast
  fcastVals : List ℚ
  fcastIdx : List Nat
  heat : Option (List ((Nat × Nat) × ℚ))
  summary : Nat × Nat × Nat × ℚ
  corpus : Str
  lengths : List (Str × List Nat)
  hourHistT : List (Nat × Nat)
  emojiTopT : List (Char × Nat)
  respT : List (Str × ℚ)
  deriving DecidableEq

/-- Abort causes of `analyze_chat`, carrying the outputs already produced
when the exception propagates. -/
inductive AnalyzeErr
  | arimaFailure (pre : PreForecast)
  | emptySeries (pre : PreForecast)
  deriving DecidableEq

/-- Model of `analyze_chat` downstream of parsing.  The external
collaborators are parameters: `fit` is the `auto_arima` order search plus
`ARIMA(...).fit()`, yielding for a daily series either a forecast function
(`.forecast(steps)`) or a raised failure; `stopSet` is the NLTK stopword
set; `isEmoji` the `emoji.EMOJI_DATA` table.  There is no handler around the
ARIMA calls, so a fit failure propagates (`Except.error`) and no stage after
the forecast runs; `daily.index[-1]` on an empty series likewise raises. -/
def analyzeChat (msgs : List Msg) (calls : List Call)
    (fit : List (Nat × Nat) → Option (Nat → List ℚ))
    (stopSet : Str → Bool) (isEmoji : Char → Bool) : Except AnalyzeErr Report :=
  let pre := preForecastOf msgs
  match fit (dailySeries msgs) with
  | none => Except.error (AnalyzeErr.arimaFailure pre)
  | some f =>
    match (dailySeries msgs).getLast? with
    | none => Except.error (AnalyzeErr.emptySeries pre)
    | some lastp =>
      Except.ok
        { pre := pre
          fcastVals := f 30
          fcastIdx := (List.range 30).map (fun i => lastp.1 + 1 + i)
          heat := if calls.isEmpty then none else some (heatTable calls)
          summary := callSummary calls
          corpus := corpusOf stopSet msgs
          lengths := lengthsBySender msgs
          hourHistT := hourHist msgs
          emojiTopT := emojiTop10 isEmoji msgs
          respT := respResult msgs }

/-- Association-list lookup by key, the reading of "the mapping maps key
`a` to ..." used in the claims. -/
def lookupEq {α β : Type} [DecidableEq α] (a : α) : List (α × β) → Option β
  | [] => none
  | (k, v) :: es => if k = a then some v else lookupEq a es

/-- Concrete message constructor for the example inputs below. -/
def exMsg (y mo d h mi s : Nat) (sender msg : String) : Msg :=
  ⟨⟨y, mo, d, h, mi, s⟩, sender.toList, msg.toList⟩

/-- Example: messages on 2024-01-01 and 2024-01-03, none on 2024-01-02. -/
def c1msgs : List Msg :=
  [exMsg 2024 1 1 10 0 0 "Alice" "hi", exMsg 2024 1 3 9 0 0 "Bob" "yo"]

/-- Example: a well-formed line followed by a grammar-matching line whose
timestamp (February 31) fails to parse. -/
def c2lines : List Str :=
  ["[01/01/2024, 10:00:00] Alice: hi".toList,
   "[31/02/2024, 10:00:00] Bob: yo".toList]

/-- Example messages for the forecast-failure run. -/
def c3msgs : List Msg :=
  [exMsg 2024 1 1 10 0 0 "Alice" "hi", exMsg 2024 1 2 11 0 0 "Bob" "yo"]

/-- Example calls for the forecast-failure run. -/
def c3calls : List Call :=
  [⟨⟨2024, 1, 1, 12, 0, 0⟩, "Alice".toList, 45, CallType.Completed⟩]

/-- Example: Alice has an image-omitted message, Bob has none. -/
def c6msgs : List Msg :=
  [exMsg 2024 1 1 10 0 0 "Alice" "image omitted", exMsg 2024 1 1 10 5 0 "Bob" "hi"]

/-- Example message list for a succeeding forecast run. -/
def c7msgs : List Msg := [exMsg 2024 1 1 10 0 0 "Alice" "hi"]

/-- Example oracle: the order search and fit succeed, and forecasting yields
one value (zero) per requested step, as the library contract promises. -/
def c7fit : List (Nat × Nat) → Option (Nat → List ℚ) :=
  fun _ => some (fun steps => List.replicate steps 0)

/-- The report `analyze_chat` produces on `c7msgs` with oracle `c7fit`
(2024-01-01 is day 738886). -/
def c7rep : Report :=
  { pre := preForecastOf c7msgs
    fcastVals := List.replicate 30 0
    fcastIdx := (List.range 30).map (fun i => 738886 + 1 + i)
    heat := none
    summary := callSummary []
    corpus := corpusOf (fun _ => false) c7msgs
    lengths := lengthsBySender c7msgs
    hourHistT := hourHist c7msgs
    emojiTopT := emojiTop10 (fun _ => false) c7msgs
    respT := respResult c7msgs }

/-- Example: Alice sends at 10:00 and 10:10 with Bob in between at 10:05. -/
def c8msgs : List Msg :=
  [exMsg 2024 1 1 10 0 0 "Alice" "hi", exMsg 2024 1 1 10 5 0 "Bob" "hey",
   exMsg 2024 1 1 10 10 0 "Alice" "how are you"]

/-- Example: a single message, sent at hour 10. -/
def c9msgs : List Msg := [exMsg 2024 1 1 10 0 0 "Alice" "hi"]

/-! ### Supporting lemmas -/

lemma gapsMin_length : ∀ l : List Int, (gapsMin l).length = l.length - 1 := by
  intro l
  induction l with
  | nil => rfl
  | cons t1 rest ih =>
    cases rest with
    | nil => rfl
    | cons t2 rest2 =>
      simp only [gapsMin, List.length_cons] at ih ⊢
      omega

lemma mem_dedupFirstAux {α : Type} [DecidableEq α] (a : α) (l : List α) :
    ∀ seen, a ∈ dedupFirstAux seen l ↔ a ∈ l ∧ a ∉ seen := by
  induction l with
  | nil => intro seen; simp [dedupFirstAux]
  | cons x xs ih =>
    intro seen
    by_cases hx : x ∈ seen
    · rw [dedupFirstAux, if_pos hx, ih]
      constructor
      · exact fun h => ⟨List.mem_cons_of_mem x h.1, h.2⟩
      · rintro ⟨h1, h2⟩
        rcases List.mem_cons.1 h1 with rfl | h1
        · exact absurd hx h2
        · exact ⟨h1, h2⟩
    · rw [dedupFirstAux, if_neg hx]
      constructor
      · intro h
        rcases List.mem_cons.1 h with rfl | h
        · exact ⟨List.mem_cons_self _ _, hx⟩
        · rw [ih] at h
          exact ⟨List.mem_cons_of_mem x h.1, fun hs => h.2 (List.mem_cons_of_mem x hs)⟩
      · rintro ⟨h1, h2⟩
        rcases List.mem_cons.1 h1 with rfl | h1
        · exact List.mem_cons_self _ _
        · by_cases hax : a = x
          · subst hax; exact List.mem_cons_self _ _
          · refine List.mem_cons_of_mem x ((ih (x :: seen)).2 ⟨h1, ?_⟩)
            intro hmem
            rcases List.mem_cons.1 hmem with h | h
            · exact hax h
            · exact h2 h

lemma mem_dedupFirst {α : Type} [DecidableEq α] (a : α) (l : List α) :
    a ∈ dedupFirst l ↔ a ∈ l := by
  rw [dedupFirst, mem_dedupFirstAux]
  simp

lemma nodup_dedupFirstAux {α : Type} [DecidableEq α] (l : List α) :
    ∀ seen, (dedupFirstAux seen l).Nodup := by
  induction l with
  | nil => intro seen; simp [dedupFirstAux]
  | cons x xs ih =>
    intro seen
    by_cases hx : x ∈ seen
    · rw [dedupFirstAux, if_pos hx]; exact ih seen
    · rw [dedupFirstAux, if_neg hx]
      refine List.nodup_cons.2 ⟨?_, ih (x :: seen)⟩
      intro hmem
      exact ((mem_dedupFirstAux x xs (x :: seen)).1 hmem).2 (List.mem_cons_self x seen)

lemma nodup_dedupFirst {α : Type} [DecidableEq α] (l : List α) :
    (dedupFirst l).Nodup := nodup_dedupFirstAux l []

lemma lookupEq_map_keyfn {α β : Type} [DecidableEq α] (f : α → β) (a : α) :
    ∀ ks : List α, lookupEq a (ks.map (fun k => (k, f k))) =
      if a ∈ ks then some (f a) else none := by
  intro ks
  induction ks with
  | nil => simp [lookupEq]
  | cons k ks ih =>
    by_cases hk : k = a
    · subst hk; simp [lookupEq]
    · simp only [List.map_cons, lookupEq, if_neg hk, ih, List.mem_cons]
      have : ¬a = k := fun h => hk h.symm
      simp [this]

lemma lookupEq_keyed_filterMap {α β : Type} [DecidableEq α] (f : α → Option β) (a : α) :
    ∀ ks : List α, ks.Nodup →
      lookupEq a (ks.filterMap (fun k => (f k).map (fun v => (k, v)))) =
        if a ∈ ks then f a else none := by
  intro ks
  induction ks with
  | nil => intro _; simp [lookupEq]
  | cons k ks ih =>
    intro hnd
    obtain ⟨hk, hnd2⟩ := List.nodup_cons.1 hnd
    by_cases hak : a = k
    · subst hak
      cases hf : f a with
      | none =>
        simp only [List.filterMap_cons, hf, Option.map_none']
        rw [ih hnd2, if_neg hk, if_pos (List.mem_cons_self a ks)]
      | some v =>
        simp only [List.filterMap_cons, hf, Option.map_some']
        simp [lookupEq, hf]
    · have hka : ¬k = a := fun h => hak h.symm
      cases hf : f k with
      | none =>
        simp only [List.filterMap_cons, hf, Option.map_none']
        rw [ih hnd2]
        simp [List.mem_cons, hak]
      | some v =>
        simp only [List.filterMap_cons, hf, Option.map_some']
        simp only [lookupEq, if_neg hka]
        rw [ih hnd2]
        simp [List.mem_cons, hak]

lemma mem_dedupAdj (a : Nat) : ∀ l : List Nat, a ∈ dedupAdj l ↔ a ∈ l := by
  intro l
  induction l with
  | nil => simp [dedupAdj]
  | cons x xs ih =>
    cases xs with
    | nil => simp [dedupAdj]
    | cons y ys =>
      by_cases hxy : x = y
      · subst hxy
        rw [dedupAdj, if_pos rfl, ih]
        simp [List.mem_cons]
      · rw [dedupAdj, if_neg hxy]
        simp only [List.mem_cons] at ih ⊢
        rw [ih]

lemma senderSplitAux_append (s : Str) :
    ∀ (c : Char) (b : Str), b ≠ [] → strContains (c :: s) colonSpaceLit = false →
      senderSplitAux c (s ++ ':' :: ' ' :: b) = some (c :: s, b) := by
  induction s with
  | nil =>
    intro c b hb hns
    cases b with
    | nil => exact absurd rfl hb
    | cons b0 bs => simp [senderSplitAux, startsSpaceBody]
  | cons c2 s2 ih =>
    intro c b hb hns
    rw [strContains] at hns
    obtain ⟨hns0, hns1⟩ := Bool.or_eq_false_iff.mp hns
    have hcond : (c2 == ':' && startsSpaceBody (s2 ++ ':' :: ' ' :: b)) = false := by
      by_cases hc2 : c2 = ':'
      · subst hc2
        cases s2 with
        | nil => rfl
        | cons c3 s3 =>
          rw [strContains] at hns1
          obtain ⟨hh, _⟩ := Bool.or_eq_false_iff.mp hns1
          have hc3 : ¬c3 = ' ' := by
            intro h
            subst h
            simp [colonSpaceLit, strStarts] at hh
          cases s3 with
          | nil => simp [startsSpaceBody, hc3]
          | cons c4 s4 => simp [startsSpaceBody, hc3]
      · simp [hc2]
    rw [List.cons_append, senderSplitAux, hcond]
    simp only [Bool.false_eq_true, if_false]
    rw [ih c2 b hb hns1]
    rfl

lemma senderSplit_append (s b : Str) (hs : s ≠ []) (hb : b ≠ [])
    (hns : strContains s colonSpaceLit = false) :
    senderSplit (s ++ ':' :: ' ' :: b) = some (s, b) := by
  cases s with
  | nil => exact absurd rfl hs
  | cons c s2 =>
    rw [List.cons_append, senderSplit]
    exact senderSplitAux_append s2 c b hb hns

lemma buildRecords_error_of_bad :
    ∀ ms : List (Str × Str × Str), (∃ m ∈ ms, strptime m.1 = none) →
      buildRecords ms = Except.error () := by
  intro ms
  induction ms with
  | nil => rintro ⟨m, hm, _⟩; cases hm
  | cons hd tl ih =>
    rintro ⟨m, hm, hbad⟩
    obtain ⟨ts, s, b⟩ := hd
    rcases List.mem_cons.1 hm with rfl | h
    · rw [buildRecords, hbad]
    · rw [buildRecords]
      cases hts : strptime ts with
      | none => rfl
      | some dt => rw [ih ⟨m, h, hbad⟩]; rfl

lemma sorted_lt_dedupAdj : ∀ l : List Nat, l.Sorted (· ≤ ·) → (dedupAdj l).Sorted (· < ·) := by
  intro l
  induction l with
  | nil => intro _; simp [dedupAdj]
  | cons x xs ih =>
    cases xs with
    | nil => intro _; simp [dedupAdj]
    | cons y ys =>
      intro hs
      obtain ⟨hxall, hs2⟩ := List.pairwise_cons.1 hs
      by_cases hxy : x = y
      · subst hxy
        rw [dedupAdj, if_pos rfl]
        exact ih hs2
      · rw [dedupAdj, if_neg hxy]
        refine List.pairwise_cons.2 ⟨?_, ih hs2⟩
        intro b hb
        rw [mem_dedupAdj] at hb
        rcases List.mem_cons.1 hb with rfl | hb
        · exact lt_of_le_of_ne (hxall b (List.mem_cons_self b ys)) hxy
        · have hyb : y ≤ b := (List.pairwise_cons.1 hs2).1 b hb
          have hxyl : x ≤ y := hxall y (List.mem_cons_self y ys)
          exact lt_of_lt_of_le (lt_of_le_of_ne hxyl hxy) hyb

lemma mem_keys_valueCounts {α : Type} [DecidableEq α] (a : α) (xs : List α) :
    a ∈ (valueCounts xs).map Prod.fst ↔ a ∈ xs := by
  have h1 : (valueCounts xs).map Prod.fst = dedupFirst xs := by
    simp [valueCounts, List.map_map, Function.comp_def]
  rw [h1, mem_dedupFirst]

lemma reSearchIntWord_eq_tail (c : Char) (rest : Str)
    (h : intWordHere (c :: rest) = false) :
    reSearchIntWord (c :: rest) = reSearchIntWord rest := by
  rw [reSearchIntWord, h]
  simp

lemma reSearchIntWord_none (t : Str)
    (h : ∀ j, intWordHere (t.drop j) = false) : reSearchIntWord t = none := by
  induction t with
  | nil => rfl
  | cons c rest ih =>
    rw [reSearchIntWord_eq_tail c rest (by simpa using h 0)]
    exact ih (fun j => by simpa [List.drop_succ_cons] using h (j + 1))

lemma reSearchIntWord_first : ∀ (t : Str) (k : Nat),
    (∀ j, j < k → intWordHere (t.drop j) = false) → intWordHere (t.drop k) = true →
    reSearchIntWord t =
      some (natOfDigits ((t.drop k).takeWhile Char.isDigit), unitHere (t.drop k)) := by
  intro t
  induction t with
  | nil =>
    intro k _ hk
    rw [List.drop_nil] at hk
    simp [intWordHere] at hk
  | cons c rest ih =>
    intro k hlt hk
    cases k with
    | zero =>
      rw [List.drop_zero] at hk ⊢
      rw [reSearchIntWord, hk]
      simp
    | succ k2 =>
      have h0 : intWordHere (c :: rest) = false := by
        simpa using hlt 0 (Nat.succ_pos k2)
      rw [reSearchIntWord_eq_tail c rest h0]
      rw [List.drop_succ_cons] at hk ⊢
      exact ih k2
        (fun j hj => by simpa [List.drop_succ_cons] using hlt (j + 1) (Nat.succ_lt_succ hj)) hk

/-! ### Claim theorems -/

/-- Claim C5: for every line of the grammar shape
`[<DD/MM/YYYY, HH:MM:SS>] <sender>: <body>` — timestamp digits arbitrary,
sender non-empty and free of the `": "` delimiter, body non-empty and
otherwise arbitrary (it may itself contain `": "`) — the parser extracts
exactly this sender (the shortest text between the closing bracket plus
space and the first `": "`) and assigns everything after that first
delimiter to the body; an internal `": "` of the body never splits it. -/
theorem c5_sender_shortest
    (d1 d2 m1 m2 y1 y2 y3 y4 h1 h2 n1 n2 s1 s2 : Char)
    (hd : ([d1, d2, m1, m2, y1, y2, y3, y4, h1, h2, n1, n2, s1, s2].all Char.isDigit) = true)
    (s b : Str) (hs : s ≠ []) (hb : b ≠ [])
    (hns : strContains s colonSpaceLit = false) :
    matchFrom ('[' :: d1 :: d2 :: '/' :: m1 :: m2 :: '/' :: y1 :: y2 :: y3 :: y4 :: ',' :: ' ' ::
        h1 :: h2 :: ':' :: n1 :: n2 :: ':' :: s1 :: s2 :: ']' :: ' ' :: (s ++ ':' :: ' ' :: b)) =
      some ([d1, d2, '/', m1, m2, '/', y1, y2, y3, y4, ',', ' ',
             h1, h2, ':', n1, n2, ':', s1, s2], s, b) := by
  have hts : tsShape ('[' :: d1 :: d2 :: '/' :: m1 :: m2 :: '/' :: y1 :: y2 :: y3 :: y4 ::
      ',' :: ' ' :: h1 :: h2 :: ':' :: n1 :: n2 :: ':' :: s1 :: s2 :: ']' :: ' ' ::
      (s ++ ':' :: ' ' :: b)) =
      some ([d1, d2, '/', m1, m2, '/', y1, y2, y3, y4, ',', ' ',
             h1, h2, ':', n1, n2, ':', s1, s2], s ++ ':' :: ' ' :: b) := by
    rw [tsShape, if_pos hd]
  have hss : senderSplit (s ++ ':' :: ' ' :: b) = some (s, b) :=
    senderSplit_append s b hs hb hns
  rw [matchFrom, hts]
  simp only [hss]

/-- Claim C5 witness: the theorem applied to the line
`[01/02/2024, 03:04:05] Alice: ok: yes`, whose body contains `": "`. -/
theorem c5_witness :
    matchFrom ('[' :: '0' :: '1' :: '/' :: '0' :: '2' :: '/' :: '2' :: '0' :: '2' :: '4' ::
        ',' :: ' ' :: '0' :: '3' :: ':' :: '0' :: '4' :: ':' :: '0' :: '5' :: ']' :: ' ' ::
        ("Alice".toList ++ ':' :: ' ' :: "ok: yes".toList)) =
      some (['0', '1', '/', '0', '2', '/', '2', '0', '2', '4', ',', ' ',
             '0', '3', ':', '0', '4', ':', '0', '5'], "Alice".toList, "ok: yes".toList) :=
  c5_sender_shortest '0' '1' '0' '2' '2' '0' '2' '4' '0' '3' '0' '4' '0' '5' (by decide)
    ("Alice".toList) ("ok: yes".toList) (by decide) (by decide) (by decide)

/-- Claim C2 counterexample: on a file whose second line matches the grammar
but carries the unparsable timestamp 31 February, `parse_chat` does not drop
the line and continue — it aborts with the propagated `ValueError`, emitting
no records at all (the claim requires `Except.ok` with the first line's
message record). -/
theorem c2_counterexample : parseChat c2lines = Except.error () := by rfl

/-- Claim C2 (amended): a grammar-matching line whose timestamp string fails
to parse as a valid `DD/MM/YYYY HH:MM:SS` date-time is fatal to the whole
run: the exception propagates out of `parse_chat` and no record is returned
for any line. -/
theorem c2_amended (lines : List Str) (ts s b : Str)
    (hmem : (ts, s, b) ∈ allMatches lines) (hbad : strptime ts = none) :
    parseChat lines = Except.error () :=
  buildRecords_error_of_bad (allMatches lines) ⟨(ts, s, b), hmem, hbad⟩

/-- Claim C2 (amended) witness: instantiated on a one-line file with the
31 February timestamp. -/
theorem c2_amended_witness :
    parseChat ["[31/02/2024, 10:00:00] Bob: yo".toList] = Except.error () :=
  c2_amended ["[31/02/2024, 10:00:00] Bob: yo".toList]
    ("31/02/2024, 10:00:00".toList) ("Bob".toList) ("yo".toList) (by decide) (by decide)

/-- Claim C10: every grammar-matching line whose timestamp parses yields
exactly one record, and it is a call record iff its body contains the
case-sensitive literal `"Video call"` or `"Missed video call"`; any other
body (including lower-case variants such as `"missed video call"`) yields a
message record. -/
theorem c10_classification (line ts s b : Str) (dt : DateTime)
    (hm : matchFrom line = some (ts, s, b)) (hts : strptime ts = some dt) :
    parseChat [line] =
      Except.ok (if isCallBody b then ([], [mkCall dt s b]) else ([⟨dt, s, b⟩], [])) ∧
    isCallBody b = (strContains b videoCallLit || strContains b missedVideoCallLit) := by
  constructor
  · show buildRecords (allMatches [line]) = _
    have hml : allMatches [line] = [(ts, s, b)] := by simp [allMatches, hm]
    rw [hml, buildRecords, hts]
    cases hc : isCallBody b <;> simp [buildRecords, hc, Except.map]
  · rfl

/-- Claim C10 witness: a line whose body is the lower-case variant
`missed video call earlier` is parsed as a message record, not a call. -/
theorem c10_witness :
    parseChat ["[01/01/2024, 10:00:00] Alice: missed video call earlier".toList] =
      Except.ok (if isCallBody "missed video call earlier".toList then
          ([], [mkCall ⟨2024, 1, 1, 10, 0, 0⟩ "Alice".toList "missed video call earlier".toList])
        else ([⟨⟨2024, 1, 1, 10, 0, 0⟩, "Alice".toList, "missed video call earlier".toList⟩], [])) ∧
    isCallBody "missed video call earlier".toList =
      (strContains "missed video call earlier".toList videoCallLit ||
        strContains "missed video call earlier".toList missedVideoCallLit) :=
  c10_classification ("[01/01/2024, 10:00:00] Alice: missed video call earlier".toList)
    ("01/01/2024, 10:00:00".toList) ("Alice".toList) ("missed video call earlier".toList)
    ⟨2024, 1, 1, 10, 0, 0⟩ (by decide) (by decide)

/-- Claim C4: normalization of call-body durations.  A body containing
`"Missed"` is 0 regardless of digits; otherwise, at the first position where
an integer followed by a word occurs, the duration is the integer times 60
when the word starts with `hr` and the integer itself otherwise; with no
such occurrence the duration is 0.  `"2 hr"` gives 120 and `"45 min"` 45. -/
theorem c4_duration :
    (∀ b : Str, strContains b missedLit = true → durationOf b = 0) ∧
    (∀ (b : Str) (k : Nat), strContains b missedLit = false →
      (∀ j, j < k → intWordHere (b.drop j) = false) → intWordHere (b.drop k) = true →
      durationOf b =
        (if startsHr (unitHere (b.drop k)) then
          natOfDigits ((b.drop k).takeWhile Char.isDigit) * 60
        else natOfDigits ((b.drop k).takeWhile Char.isDigit))) ∧
    (∀ b : Str, strContains b missedLit = false → (∀ j, intWordHere (b.drop j) = false) →
      durationOf b = 0) ∧
    durationOf "2 hr".toList = 120 ∧ durationOf "45 min".toList = 45 := by
  refine ⟨?_, ?_, ?_, by decide, by decide⟩
  · intro b hm
    simp [durationOf, callTypeOf, hm]
  · intro b k hm hlt hk
    have hs := reSearchIntWord_first b k hlt hk
    simp [durationOf, callTypeOf, hm, hs]
  · intro b hm hall
    have hs := reSearchIntWord_none b hall
    simp [durationOf, callTypeOf, hm, hs]

/-- Claim C4 witness: a Missed body with embedded digits normalizes to 0,
and `Video call, 45 min` (first integer-word occurrence at position 12)
normalizes via the non-hr branch. -/
theorem c4_witness :
    durationOf "Missed video call, 3 hrs ago".toList = 0 ∧
    durationOf "Video call, 45 min".toList =
      (if startsHr (unitHere ("Video call, 45 min".toList.drop 12)) then
        natOfDigits (("Video call, 45 min".toList.drop 12).takeWhile Char.isDigit) * 60
      else natOfDigits (("Video call, 45 min".toList.drop 12).takeWhile Char.isDigit)) :=
  ⟨c4_duration.1 ("Missed video call, 3 hrs ago".toList) (by decide),
   c4_duration.2.1 ("Video call, 45 min".toList) 12 (by decide) (by decide) (by decide)⟩

/-- Claim C1 counterexample: messages on 2024-01-01 (day 738886) and
2024-01-03 (day 738888) only.  The claim requires a 2024-01-02 key with
count 0 and length (last−first).days+1 = 3; the code produces just the two
observed dates. -/
theorem c1_counterexample :
    dailySeries c1msgs = [(738886, 1), (738888, 1)] ∧
    (dailySeries c1msgs).length ≠ 738888 - 738886 + 1 := by
  exact ⟨by rfl, by decide⟩

/-- Claim C1 (amended): the DailySeries keys are the strictly increasing
enumeration of the distinct observed message dates, each mapped to its
message count; calendar days with no messages are absent rather than mapped
to 0, so the length is the number of distinct observed dates, not
(last−first).days+1. -/
theorem c1_amended (msgs : List Msg) :
    ((dailySeries msgs).map Prod.fst).Sorted (· < ·) ∧
    (∀ d : Nat, d ∈ (dailySeries msgs).map Prod.fst ↔ d ∈ msgDates msgs) ∧
    (∀ p ∈ dailySeries msgs, p.2 = countEq p.1 (msgDates msgs)) := by
  have h1 : (dailySeries msgs).map Prod.fst =
      dedupAdj (List.insertionSort (· ≤ ·) (msgDates msgs)) := by
    simp [dailySeries, List.map_map, Function.comp_def]
  refine ⟨?_, ?_, ?_⟩
  · rw [h1]
    exact sorted_lt_dedupAdj _ (List.sorted_insertionSort _ _)
  · intro d
    rw [h1, mem_dedupAdj, (List.perm_insertionSort (· ≤ ·) (msgDates msgs)).mem_iff]
  · intro p hp
    rw [dailySeries] at hp
    obtain ⟨d, _, rfl⟩ := List.mem_map.1 hp
    rfl

/-- Claim C1 (amended) witness: on the two-date example the 2024-01-01 key
is present because a message on that date exists. -/
theorem c1_amended_witness : 738886 ∈ (dailySeries c1msgs).map Prod.fst :=
  ((c1_amended c1msgs).2.1 738886).mpr (by decide)

/-- Claim C9 counterexample: one message at hour 10 yields a single-bucket
histogram, not 24 buckets covering hours 0 through 23. -/
theorem c9_counterexample :
    hourHist c9msgs = [(10, 1)] ∧ (hourHist c9msgs).length ≠ 24 := by
  exact ⟨by rfl, by decide⟩

/-- Claim C9 (amended): the hour-of-day histogram has one bucket per
distinct observed hour, in increasing order, with that hour's message count
across all senders combined; hours in which no message occurred get no
bucket. -/
theorem c9_amended (msgs : List Msg) :
    ((hourHist msgs).map Prod.fst).Sorted (· < ·) ∧
    (∀ h : Nat, h ∈ (hourHist msgs).map Prod.fst ↔ h ∈ msgs.map (fun m => m.dt.hour)) ∧
    (∀ p ∈ hourHist msgs, p.2 = countEq p.1 (msgs.map (fun m => m.dt.hour))) := by
  have h1 : (hourHist msgs).map Prod.fst =
      dedupAdj (List.insertionSort (· ≤ ·) (msgs.map (fun m => m.dt.hour))) := by
    simp [hourHist, List.map_map, Function.comp_def]
  refine ⟨?_, ?_, ?_⟩
  · rw [h1]
    exact sorted_lt_dedupAdj _ (List.sorted_insertionSort _ _)
  · intro h
    rw [h1, mem_dedupAdj,
      (List.perm_insertionSort (· ≤ ·) (msgs.map (fun m => m.dt.hour))).mem_iff]
  · intro p hp
    rw [hourHist] at hp
    obtain ⟨h, _, rfl⟩ := List.mem_map.1 hp
    rfl

/-- Claim C9 (amended) witness: hour 10 has a bucket on the one-message
example because a message at hour 10 exists. -/
theorem c9_amended_witness : 10 ∈ (hourHist c9msgs).map Prod.fst :=
  ((c9_amended c9msgs).2.1 10).mpr (by decide)

/-- Claim C6 counterexample: Bob appears in the total per-sender counts but
is omitted from the image-omitted grouping rather than mapped to 0. -/
theorem c6_counterexample :
    ("Bob".toList ∈ (msgCount c6msgs).map Prod.fst) ∧
    lookupEq "Bob".toList (imgCount c6msgs) = none ∧
    ("Bob".toList ∉ (imgCount c6msgs).map Prod.fst) := by
  exact ⟨by decide, by rfl, by decide⟩

/-- Claim C6 (amended): a sender appears in the image-omitted (resp.
sticker-omitted) per-sender grouping iff at least one of their messages
contains the phrase case-insensitively, and then with the count of their
matching messages; senders of the total counts with no matching message are
omitted from the grouping, not mapped to 0. -/
theorem c6_amended (msgs : List Msg) (s : Str) :
    (s ∈ (msgCount msgs).map Prod.fst ↔ ∃ m ∈ msgs, m.sender = s) ∧
    (s ∈ (imgCount msgs).map Prod.fst ↔
      ∃ m ∈ msgs, m.sender = s ∧ containsCI m.message imageOmittedLit = true) ∧
    (s ∈ (stkCount msgs).map Prod.fst ↔
      ∃ m ∈ msgs, m.sender = s ∧ containsCI m.message stickerOmittedLit = true) ∧
    (∀ p ∈ imgCount msgs, p.2 =
      countEq p.1 ((msgs.filter (fun m => containsCI m.message imageOmittedLit)).map
        Msg.sender)) ∧
    (∀ p ∈ stkCount msgs, p.2 =
      countEq p.1 ((msgs.filter (fun m => containsCI m.message stickerOmittedLit)).map
        Msg.sender)) := by
  refine ⟨?_, ?_, ?_, ?_, ?_⟩
  · rw [msgCount, mem_keys_valueCounts]
    simp [List.mem_map]
  · rw [imgCount, mem_keys_valueCounts]
    simp only [List.mem_map, List.mem_filter]
    constructor
    · rintro ⟨m, ⟨hm, hc⟩, rfl⟩; exact ⟨m, hm, rfl, hc⟩
    · rintro ⟨m, hm, rfl, hc⟩; exact ⟨m, ⟨hm, hc⟩, rfl⟩
  · rw [stkCount, mem_keys_valueCounts]
    simp only [List.mem_map, List.mem_filter]
    constructor
    · rintro ⟨m, ⟨hm, hc⟩, rfl⟩; exact ⟨m, hm, rfl, hc⟩
    · rintro ⟨m, hm, rfl, hc⟩; exact ⟨m, ⟨hm, hc⟩, rfl⟩
  · intro p hp
    rw [imgCount, valueCounts] at hp
    obtain ⟨k, _, rfl⟩ := List.mem_map.1 hp
    rfl
  · intro p hp
    rw [stkCount, valueCounts] at hp
    obtain ⟨k, _, rfl⟩ := List.mem_map.1 hp
    rfl

/-- Claim C6 (amended) witness: Alice does appear in the image grouping on
the example, because her message matches. -/
theorem c6_amended_witness : "Alice".toList ∈ (imgCount c6msgs).map Prod.fst :=
  ((c6_amended c6msgs "Alice".toList).2.1).mpr (by decide)

/-- Claim C8: the response-latency mapping contains a sender iff they have
at least two messages; it then maps them to the arithmetic mean, in minutes,
of their same-sender consecutive gaps (one fewer gap than messages, so a
sender with exactly two messages gets the mean of the single gap); senders
with fewer than two messages are excluded entirely. -/
theorem c8_response (msgs : List Msg) (s : Str) :
    ((msgs.filter (fun m => m.sender == s)).length < 2 →
      lookupEq s (respResult msgs) = none) ∧
    (2 ≤ (msgs.filter (fun m => m.sender == s)).length →
      lookupEq s (respResult msgs) = some (meanQ (gapsMin (senderTimes msgs s)))) ∧
    (gapsMin (senderTimes msgs s)).length =
      (msgs.filter (fun m => m.sender == s)).length - 1 := by
  have hres := lookupEq_keyed_filterMap (respMean msgs) s (dedupFirst (msgs.map Msg.sender))
    (nodup_dedupFirst (msgs.map Msg.sender))
  have hlen : (senderTimes msgs s).length = (msgs.filter (fun m => m.sender == s)).length := by
    rw [senderTimes, List.length_map]
  have hg : (gapsMin (senderTimes msgs s)).length =
      (msgs.filter (fun m => m.sender == s)).length - 1 := by
    rw [gapsMin_length, hlen]
  refine ⟨?_, ?_, hg⟩
  · intro hlt
    by_cases hmem : s ∈ msgs.map Msg.sender
    · rw [respResult, hres, if_pos ((mem_dedupFirst _ _).2 hmem)]
      have hnil : gapsMin (senderTimes msgs s) = [] := by
        rw [← List.length_eq_zero]
        omega
      simp [respMean, hnil]
    · rw [respResult, hres, if_neg (fun hx => hmem ((mem_dedupFirst _ _).1 hx))]
  · intro hge
    have hpos : 0 < (msgs.filter (fun m => m.sender == s)).length := by omega
    obtain ⟨m, hm⟩ := List.exists_mem_of_length_pos hpos
    have hmem : s ∈ msgs.map Msg.sender := by
      obtain ⟨hmm, hsm⟩ := List.mem_filter.1 hm
      exact List.mem_map.2 ⟨m, hmm, by simpa using hsm⟩
    rw [respResult, hres, if_pos ((mem_dedupFirst _ _).2 hmem)]
    have hne : gapsMin (senderTimes msgs s) ≠ [] := by
      intro hx
      rw [hx] at hg
      simp at hg
      omega
    simp [respMean, List.isEmpty_iff, hne]

/-- Claim C8 witness: Alice (two messages, 10:00 and 10:10, Bob in between)
is mapped to the mean of her single gap, 10 minutes; the example's single
gap means the mean of one sample. -/
theorem c8_witness :
    lookupEq "Alice".toList (respResult c8msgs) =
      some (meanQ (gapsMin (senderTimes c8msgs "Alice".toList))) ∧
    meanQ (gapsMin (senderTimes c8msgs "Alice".toList)) = 10 :=
  ⟨(c8_response c8msgs "Alice".toList).2.1 (by decide), by
    have ht : senderTimes c8msgs "Alice".toList = [63839786400, 63839787000] := by decide
    rw [ht]
    norm_num [gapsMin, meanQ]⟩

/-- Claim C3 counterexample: on a run whose order search fails, the result
of `analyze_chat` is the propagated error: the call heatmap, call summary,
word corpus, hour histogram, emoji counts and response latency are never
computed and reported, where the claim requires a successful run with only
the forecast omitted. -/
theorem c3_counterexample :
    analyzeChat c3msgs c3calls (fun _ => none) (fun _ => false) (fun _ => false) =
      Except.error (AnalyzeErr.arimaFailure (preForecastOf c3msgs)) := rfl

/-- Claim C3 (amended): an ARIMA order-search or fit failure is not
stage-local: `analyze_chat` has no handler around the ARIMA calls, so the
exception aborts the run right after the pre-forecast outputs (per-sender
counts and daily series), and none of the later stages — call heatmap, call
summary, word corpus, hour histogram, emoji counts, response latency — runs
or reports a result. -/
theorem c3_amended (msgs : List Msg) (calls : List Call)
    (fit : List (Nat × Nat) → Option (Nat → List ℚ))
    (stopSet : Str → Bool) (isEmoji : Char → Bool)
    (h : fit (dailySeries msgs) = none) :
    analyzeChat msgs calls fit stopSet isEmoji =
      Except.error (AnalyzeErr.arimaFailure (preForecastOf msgs)) := by
  simp [analyzeChat, h]

/-- Claim C3 (amended) witness: the failing oracle on the concrete example
aborts the run with exactly the pre-forecast outputs. -/
theorem c3_amended_witness :
    analyzeChat c3msgs [] (fun _ => none) (fun _ => true) (fun _ => true) =
      Except.error (AnalyzeErr.arimaFailure (preForecastOf c3msgs)) :=
  c3_amended c3msgs [] (fun _ => none) (fun _ => true) (fun _ => true) rfl

/-- Claim C7: whenever the forecaster succeeds — the fit oracle returns a
forecast function and that function obeys the library contract of one value
per requested step — the completed report's forecast has exactly 30 values,
and its forecast dates are the 30 consecutive calendar days starting the day
immediately after the last date of the DailySeries. -/
theorem c7_forecast (msgs : List Msg) (calls : List Call)
    (fit : List (Nat × Nat) → Option (Nat → List ℚ))
    (stopSet : Str → Bool) (isEmoji : Char → Bool)
    (f : Nat → List ℚ) (r : Report) (lastp : Nat × Nat)
    (hf : fit (dailySeries msgs) = some f)
    (hlen : (f 30).length = 30)
    (hlast : (dailySeries msgs).getLast? = some lastp)
    (hok : analyzeChat msgs calls fit stopSet isEmoji = Except.ok r) :
    r.fcastVals.length = 30 ∧
    r.fcastIdx = (List.range 30).map (fun i => lastp.1 + 1 + i) := by
  simp only [analyzeChat, hf, hlast] at hok
  obtain rfl := (Except.ok.inj hok).symm
  exact ⟨hlen, rfl⟩

/-- Claim C7 witness: the single-message run (last date 738886, 2024-01-01)
with the replicate-forecast oracle yields 30 values and the dates
738887..738916. -/
theorem c7_witness :
    c7rep.fcastVals.length = 30 ∧
    c7rep.fcastIdx = (List.range 30).map (fun i => (738886, 1).1 + 1 + i) :=
  c7_forecast c7msgs [] c7fit (fun _ => false) (fun _ => false)
    (fun steps => List.replicate steps 0) c7rep (738886, 1) rfl rfl rfl rfl

end Wachat
